import Mathlib

/-!
Shallow embedding of the libjail parameter-marshalling library
(`src/lib.rs`, with the duplicate copy in `src/main.rs` noted where the
two differ).  Rust strings and byte buffers are modelled as lists of
byte values (`List Nat`), machine integers as `Nat`/`Int`, and the two
external collaborators (the sysctl schema tree and the four jail
syscalls) as structures of oracle functions.
-/

deriving instance DecidableEq for Except

namespace Libjail

/-- Rust `String`/`CString` content: the list of UTF-8 byte values. -/
abbrev RString := List Nat

/-- UTF-8 encoding of one character, as used by Rust `String` bytes. -/
def charBytes (c : Char) : List Nat :=
  let n := c.toNat
  if n < 128 then [n]
  else if n < 2048 then [192 + n / 64, 128 + n % 64]
  else if n < 65536 then [224 + n / 4096, 128 + n / 64 % 64, 128 + n % 64]
  else [240 + n / 262144, 128 + n / 4096 % 64, 128 + n / 64 % 64, 128 + n % 64]

/-- Byte list of a string literal (used to write Rust string literals). -/
def strBytes (s : String) : RString := (s.data.map charBytes).flatten

/-- Whether a byte is a UTF-8 continuation byte (0x80..0xBF). -/
def isCont (b : Nat) : Bool := decide (128 ≤ b ∧ b ≤ 191)

/-- Consume one well-formed UTF-8 scalar from the front of a byte list,
returning the remainder, or `none` if the front is ill-formed
(RFC 3629 ranges, as checked by Rust `str::from_utf8`). -/
def utf8Step : List Nat → Option (List Nat)
  | [] => none
  | b :: rest =>
    if b < 128 then some rest
    else if 194 ≤ b ∧ b ≤ 223 then
      match rest with
      | c1 :: rest1 => if isCont c1 then some rest1 else none
      | [] => none
    else if 224 ≤ b ∧ b ≤ 239 then
      match rest with
      | c1 :: c2 :: rest2 =>
        let lowOk :=
          if b = 224 then decide (160 ≤ c1 ∧ c1 ≤ 191)
          else if b = 237 then decide (128 ≤ c1 ∧ c1 ≤ 159)
          else isCont c1
        if lowOk && isCont c2 then some rest2 else none
      | _ => none
    else if 240 ≤ b ∧ b ≤ 244 then
      match rest with
      | c1 :: c2 :: c3 :: rest3 =>
        let lowOk :=
          if b = 240 then decide (144 ≤ c1 ∧ c1 ≤ 191)
          else if b = 244 then decide (128 ≤ c1 ∧ c1 ≤ 143)
          else isCont c1
        if lowOk && isCont c2 && isCont c3 then some rest3 else none
      | _ => none
    else none

/-- Fueled UTF-8 validation loop; each step consumes at least one byte,
so fuel equal to the length of the list suffices. -/
def utf8ValidAux : Nat → List Nat → Bool
  | _, [] => true
  | 0, _ => false
  | fuel + 1, l =>
    match utf8Step l with
    | none => false
    | some rest => utf8ValidAux fuel rest

/-- Validity of a byte list as UTF-8 (success of Rust `str::from_utf8`,
hence of `CString::into_string`). -/
def utf8Valid (l : List Nat) : Bool := utf8ValidAux l.length l

/-- `ConvertError` of `src/lib.rs` (payloads of the wrapped std errors
carry no information the library inspects and are dropped). -/
inductive ConvertError
  | nulError
  | intoStringError
  | parseIntError
deriving DecidableEq

/-- Errors of the `sysctl` crate as far as the library distinguishes
them: `NoReadAccess` is treated specially, everything else is generic. -/
inductive SysctlError
  | noReadAccess
  | noWriteAccess
  | ctlUnknown
  | typeUnknown
deriving DecidableEq

/-- `LibJailError`.  `src/lib.rs` wraps the failing syscall's
`IoError::last_os_error()` (an OS error code plus its textual
description); `src/main.rs` names the same data
`ExternalError { code, message }`, which is the constructor used here. -/
inductive LibJailError
  | externalError (code : Int) (message : RString)
  | sysctlError (e : SysctlError)
  | convertError (e : ConvertError)
  | mismatchCtlType
  | mismatchCtlValue
deriving DecidableEq

/-- The tagged union `Val` of `src/lib.rs`.  `cstring` holds the content
bytes of the `CString` (without the trailing NUL); `ip4`/`ip6` hold the
stored (byte-swapped) numeric value; `i32` is an `Int`, the unsigned
variants are `Nat`s. -/
inductive Val
  | buffer (bytes : List Nat)
  | cstring (bytes : List Nat)
  | i32 (v : Int)
  | u32 (v : Nat)
  | u64 (v : Nat)
  | u128 (v : Nat)
  | bool (v : Bool)
  | ip4 (v : Nat)
  | ip6 (v : Nat)
  | null
deriving DecidableEq

/-- The decode-side union `OutVal` of `src/lib.rs`.  `string` holds the
decoded bytes; `ip4`/`ip6` hold the numeric address (the value of the
Rust `Ipv4Addr`/`Ipv6Addr`, big-endian interpretation of the octets). -/
inductive OutVal
  | string (s : RString)
  | i32 (v : Int)
  | u32 (v : Nat)
  | u64 (v : Nat)
  | bool (v : Bool)
  | ip4 (v : Nat)
  | ip6 (v : Nat)
  | null
deriving DecidableEq

/-- Little-endian byte decomposition of a number into `w` bytes. -/
def toBytesLE : Nat → Nat → List Nat
  | 0, _ => []
  | w + 1, n => n % 256 :: toBytesLE w (n / 256)

/-- Recomposition of a little-endian byte list into a number. -/
def fromBytesLE : List Nat → Nat
  | [] => 0
  | b :: bs => b + 256 * fromBytesLE bs

/-- Rust `uN::swap_bytes` on a `w`-byte unsigned integer: reverse the
byte order. -/
def swapBytes (w n : Nat) : Nat := fromBytesLE (toBytesLE w n).reverse

/-- `TryFrom<String> for Val` (and `TryFrom<&str>`): `CString::new`
fails with a `NulError` exactly when the input contains a NUL byte. -/
def tryFromString (s : RString) : Except ConvertError Val :=
  if 0 ∈ s then .error .nulError else .ok (.cstring s)

/-- `TryFrom<Ipv4Addr> for Val`: stores the address numeric after a
byte-order swap.  The Rust impl always returns `Ok`, so it is modelled
as total. -/
def valFromIpv4 (a : Nat) : Val := .ip4 (swapBytes 4 a)

/-- `TryFrom<Ipv6Addr> for Val`: stores the address numeric after a
byte-order swap.  The Rust impl always returns `Ok`, so it is modelled
as total. -/
def valFromIpv6 (a : Nat) : Val := .ip6 (swapBytes 16 a)

/-- Bytes read by `CString::from_raw` from a buffer: everything before
the first NUL. -/
def takeToNul (bs : List Nat) : List Nat := bs.takeWhile (fun b => decide (b ≠ 0))

/-- Decimal digits of a natural number (fueled; fuel `n + 1` suffices). -/
def natToDecAux : Nat → Nat → List Nat
  | 0, _ => []
  | fuel + 1, n => if n < 10 then [48 + n] else natToDecAux fuel (n / 10) ++ [48 + n % 10]

/-- Rust `to_string` of an unsigned integer, as bytes. -/
def natToDec (n : Nat) : List Nat := natToDecAux (n + 1) n

/-- Rust `to_string` of an `i32`, as bytes. -/
def intToDec (i : Int) : List Nat :=
  if i < 0 then 45 :: natToDec i.natAbs else natToDec i.natAbs

/-- Rust `to_string` of a `bool`, as bytes. -/
def boolRender (b : Bool) : RString :=
  if b then strBytes "true" else strBytes "false"

/-- Display of an `Ipv4Addr` built from the stored (swapped) value:
dotted quad of the octets of the swapped-back numeric. -/
def ip4Render (stored : Nat) : RString :=
  let n := swapBytes 4 stored
  natToDec (n / 16777216 % 256) ++ [46] ++ natToDec (n / 65536 % 256) ++ [46]
    ++ natToDec (n / 256 % 256) ++ [46] ++ natToDec (n % 256)

/-- Lowercase hex digit byte. -/
def hexDigit (d : Nat) : Nat := if d < 10 then 48 + d else 87 + d

/-- Lowercase hex digits of a natural number (fueled). -/
def natToHexAux : Nat → Nat → List Nat
  | 0, _ => []
  | fuel + 1, n => if n < 16 then [hexDigit n] else natToHexAux fuel (n / 16) ++ [hexDigit (n % 16)]

/-- Lowercase hex rendering of a natural number, as bytes. -/
def natToHex (n : Nat) : List Nat := natToHexAux (n + 1) n

/-- The eight 16-bit segments of an IPv6 numeric value, most
significant first (as `Ipv6Addr::segments`). -/
def ip6Segments (n : Nat) : List Nat :=
  (List.range 8).map (fun i => n / 2 ^ (112 - 16 * i) % 65536)

/-- First longest run of zeros in a segment list: loop state is the
best `(start, length)` so far and the current run. -/
def longestZeroRunAux : List Nat → Nat → Nat × Nat → Nat × Nat → Nat × Nat
  | [], _, best, cur => if cur.2 > best.2 then cur else best
  | x :: rest, i, best, cur =>
    if x = 0 then
      longestZeroRunAux rest (i + 1) best (if cur.2 = 0 then (i, 1) else (cur.1, cur.2 + 1))
    else
      longestZeroRunAux rest (i + 1) (if cur.2 > best.2 then cur else best) (0, 0)

/-- First longest run of zeros in a segment list. -/
def longestZeroRun (l : List Nat) : Nat × Nat := longestZeroRunAux l 0 (0, 0) (0, 0)

/-- Join byte-strings with a separator byte. -/
def joinBytes (sep : Nat) : List RString → RString
  | [] => []
  | [x] => x
  | x :: rest => x ++ sep :: joinBytes sep rest

/-- Dotted-quad rendering of the embedded IPv4 address of the last two
IPv6 segments. -/
def ip4FromSegs (g h : Nat) : RString :=
  natToDec (g / 256) ++ [46] ++ natToDec (g % 256) ++ [46]
    ++ natToDec (h / 256) ++ [46] ++ natToDec (h % 256)

/-- Display of an `Ipv6Addr` built from the stored (swapped) value.
Models the std `Display` impl: all-zero, loopback, IPv4-compatible and
IPv4-mapped special cases, otherwise compression of the first longest
zero-segment run of length at least two. -/
def ip6Render (stored : Nat) : RString :=
  let n := swapBytes 16 stored
  let segs := ip6Segments n
  if segs = [0, 0, 0, 0, 0, 0, 0, 0] then strBytes "::"
  else if segs = [0, 0, 0, 0, 0, 0, 0, 1] then strBytes "::1"
  else if segs.take 6 = [0, 0, 0, 0, 0, 0] then
    strBytes "::" ++ ip4FromSegs (segs.getD 6 0) (segs.getD 7 0)
  else if segs.take 6 = [0, 0, 0, 0, 0, 65535] then
    strBytes "::ffff:" ++ ip4FromSegs (segs.getD 6 0) (segs.getD 7 0)
  else
    let zr := longestZeroRun segs
    if zr.2 > 1 then
      joinBytes 58 ((segs.take zr.1).map natToHex) ++ strBytes "::"
        ++ joinBytes 58 ((segs.drop (zr.1 + zr.2)).map natToHex)
    else joinBytes 58 (segs.map natToHex)

/-- `Val::into_string` of `src/lib.rs` (lines 354-386): text variants
go through `CString::into_string` and fail on invalid UTF-8 with a
`ConvertError`; every other variant is rendered with `to_string` or the
address `Display` and cannot fail. -/
def Val.intoString : Val → Except LibJailError RString
  | .buffer bs =>
    let content := takeToNul bs
    if utf8Valid content then .ok content
    else .error (.convertError .intoStringError)
  | .cstring bs =>
    if utf8Valid bs then .ok bs else .error (.convertError .intoStringError)
  | .i32 v => .ok (intToDec v)
  | .u32 v => .ok (natToDec v)
  | .u64 v => .ok (natToDec v)
  | .u128 v => .ok (natToDec v)
  | .bool v => .ok (boolRender v)
  | .ip4 v => .ok (ip4Render v)
  | .ip6 v => .ok (ip6Render v)
  | .null => .ok []

/-- `From<Val> for OutVal` of `src/lib.rs` (lines 223-254): total;
text converts with `into_string().unwrap_or("")`, addresses swap the
byte order back, and the catch-all arm (`U128` and `Null`) yields
`I32(0)`. -/
def OutVal.fromVal : Val → OutVal
  | .i32 v => .i32 v
  | .u32 v => .u32 v
  | .u64 v => .u64 v
  | .bool v => .bool v
  | .cstring bs => .string (if utf8Valid bs then bs else [])
  | .ip4 v => .ip4 (swapBytes 4 v)
  | .ip6 v => .ip6 (swapBytes 16 v)
  | .buffer bs =>
    let content := takeToNul bs
    .string (if utf8Valid content then content else [])
  | .u128 _ => .i32 0
  | .null => .i32 0

/-- `OutVal::into_string` of `src/lib.rs` (lines 214-221). -/
def OutVal.intoString : OutVal → RString
  | .string v => v
  | _ => []

/-- One `(pointer, length)` region descriptor (`libc::iovec`).  The
base pointer is modelled as the borrowed `Val` it points into, `none`
for the null pointer of the `Null` variant. -/
structure Iovec where
  base : Option Val
  len : Nat
deriving DecidableEq

/-- `Val::to_iov` of `src/lib.rs` (lines 388-431): region lengths are
the byte sizes of the borrowed representations (`CString` includes its
trailing NUL); `Null` is a null-pointer zero-length region. -/
def Val.toIov (v : Val) : Iovec :=
  match v with
  | .buffer bs => ⟨some v, bs.length⟩
  | .cstring bs => ⟨some v, bs.length + 1⟩
  | .i32 _ => ⟨some v, 4⟩
  | .u32 _ => ⟨some v, 4⟩
  | .u64 _ => ⟨some v, 8⟩
  | .u128 _ => ⟨some v, 16⟩
  | .ip6 _ => ⟨some v, 16⟩
  | .ip4 _ => ⟨some v, 4⟩
  | .bool _ => ⟨some v, 1⟩
  | .null => ⟨none, 0⟩

/-- The region list built by the loops in `set` and `get_rules`: for
each pair in iteration order, push the key's region then the value's
region. -/
def encodePairs (m : List (Val × Val)) : List Iovec :=
  m.foldr (fun p acc => p.1.toIov :: p.2.toIov :: acc) []

/-- `Action`: a bit-flag word; `create` is `JAIL_CREATE`, `update` is
`JAIL_UPDATE`, addition is bitwise or. -/
structure Action where
  flags : Nat
deriving DecidableEq

def Action.create : Action := ⟨1⟩

def Action.update : Action := ⟨2⟩

/-- `Modifier`: the `JAIL_ATTACH` flag. -/
structure Modifier where
  flags : Nat
deriving DecidableEq

def Modifier.attach : Modifier := ⟨4⟩

def Action.addAction (a b : Action) : Action := ⟨a.flags ||| b.flags⟩

def Action.addModifier (a : Action) (m : Modifier) : Action := ⟨a.flags ||| m.flags⟩

/-- `Index`: a jail is addressed either by numeric jid or by name. -/
inductive Index
  | jid (j : Int)
  | name (n : RString)

/-- The kernel side of the four syscalls, as oracle functions:
`jailSet`/`jailGet` give the returned status for a request,
`writeVal` is the in-place mutation `jail_get` performs on each value
region (keys are parameter names and are never written), and the last
two fields are the OS last-error code and message observed after a
failing call. -/
structure JailKernel where
  jailSet : List Iovec → Nat → Int
  jailGet : List Iovec → Int
  writeVal : Val → Val → Val
  lastErrorCode : Int
  lastErrorMessage : RString

/-- `set` of `src/lib.rs` (lines 455-476): encode the pairs, invoke
`jail_set`, succeed exactly on a strictly positive jid, otherwise
surface the OS last error. -/
def set (kern : JailKernel) (rules : List (Val × Val)) (action : Action) :
    Except LibJailError Int :=
  let jid := kern.jailSet (encodePairs rules) action.flags
  if 0 < jid then .ok jid
  else .error (.externalError kern.lastErrorCode kern.lastErrorMessage)

/-- The `sysctl` crate's `CtlType` tags distinguished by the library. -/
inductive CtlType
  | tNode
  | tInt
  | tString
  | tS64
  | tStruct
  | tUint
  | tLong
  | tUlong
  | tU64
  | tU8
  | tU16
deriving DecidableEq

/-- The `sysctl` crate's `CtlValue` payloads distinguished by the
library (`Struct` carries raw bytes; its first byte is the size
field read by `get_val_by_type`). -/
inductive CtlValue
  | vNode
  | vInt (v : Int)
  | vString (s : RString)
  | vS64 (v : Int)
  | vStruct (bytes : List Nat)
  | vUint (v : Nat)
  | vLong (v : Int)
  | vUlong (v : Nat)
  | vU64 (v : Nat)
  | vNone
deriving DecidableEq

/-- One schema leaf: the data produced by `Ctl::new`, `ctl.name()`,
`ctl.value()` and `ctl.value_type()` on a sysctl node. -/
structure CtlLeaf where
  name : RString
  value : CtlValue
  ctype : CtlType
deriving DecidableEq

/-- The kernel schema tree as an oracle: one lookup per dotted path,
returning the leaf or the first error any of the four fallible calls
of `get_val_by_type` reports. -/
structure Sysctl where
  lookup : RString → Except SysctlError CtlLeaf

/-- A concrete schema tree from an association list (unlisted paths
report a generic error). -/
def mkSysctl (entries : List (RString × Except SysctlError CtlLeaf)) : Sysctl :=
  ⟨fun r =>
    match entries.find? (fun p => p.1 == r) with
    | some p => p.2
    | none => .error .ctlUnknown⟩

/-- `SYSCTL_PREFIX`, the root of the jail-parameter subtree. -/
def sysctlRoot : RString := strBytes "security.jail.param"

/-- The dotted path queried for a parameter name:
`format!("{}.{}", SYSCTL_PREFIX, key)` (46 is the dot). -/
def rulePath (key : RString) : RString := sysctlRoot ++ [46] ++ key

/-- Whether a byte is an ASCII decimal digit. -/
def isDigit (b : Nat) : Bool := decide (48 ≤ b ∧ b ≤ 57)

/-- Rust `str::parse::<usize>`: optional leading plus sign, at least
one digit, all digits, and the value must fit in 64 bits (overflow
during accumulation is equivalent to the final value overflowing). -/
def parseUsize (s : RString) : Option Nat :=
  let digits := match s with | 43 :: rest => rest | _ => s
  if digits = [] then none
  else if digits.all isDigit then
    let n := digits.foldl (fun acc b => acc * 10 + (b - 48)) 0
    if n < 2 ^ 64 then some n else none
  else none

/-- `get_val_by_key` of `src/lib.rs` (lines 501-521): the four built-in
override names and their placeholders.  (The `src/main.rs` copy only
has the first two.) -/
def getValByKey (key : RString) : Option Val :=
  if key = strBytes "ip4.addr" then some (.ip4 0)
  else if key = strBytes "ip6.addr" then some (.ip6 0)
  else if key = strBytes "ip4" then some (.i32 0)
  else if key = strBytes "ip6" then some (.i32 0)
  else none

/-- `get_val_by_type` of `src/lib.rs` (lines 523-565): query the schema
leaf for the name and build a zero placeholder from its declared type.
(The `src/main.rs` copy maps `Ulong` to `U32(0)` instead of `U64(0)`;
the library crate's behavior is the one embedded.)  Rust's `v[0]` on
the struct bytes is modelled with `headD`; the source panics on an
empty payload, so theorems only use it on nonempty payloads. -/
def getValByType (s : Sysctl) (key : RString) : Except LibJailError Val :=
  match s.lookup (rulePath key) with
  | .error e => .error (.sysctlError e)
  | .ok leaf =>
    match leaf.ctype with
    | .tInt => .ok (.i32 0)
    | .tUlong => .ok (.u64 0)
    | .tString =>
      match leaf.value with
      | .vString v =>
        match parseUsize v with
        | some size => .ok (.buffer (List.replicate size 0))
        | none => .error (.convertError .parseIntError)
      | _ => .error .mismatchCtlValue
    | .tStruct =>
      match leaf.value with
      | .vStruct v =>
        let size := v.headD 0
        if size = 4 then .ok (.u32 0)
        else if size = 16 then .ok (.u128 0)
        else .error .mismatchCtlValue
      | _ => .error .mismatchCtlValue
    | _ => .error .mismatchCtlType

/-- One iteration of the key loop of `get_rules` (lines 575-604):
built-in override first; otherwise resolve through the schema, with a
`NoReadAccess` failure skipping the key (`.ok none`) and any other
failure aborting.  The key's own `try_into()?` conversion runs before
the resolution result is matched, as in the source. -/
def stepKey (s : Sysctl) (key : RString) : Except LibJailError (Option (Val × Val)) :=
  match getValByKey key with
  | some v =>
    match tryFromString key with
    | .ok kv => .ok (some (kv, v))
    | .error e => .error (.convertError e)
  | none =>
    let value := getValByType s key
    match tryFromString key with
    | .ok kv =>
      match value with
      | .ok v => .ok (some (kv, v))
      | .error (.sysctlError .noReadAccess) => .ok none
      | .error e => .error e
    | .error e => .error (.convertError e)

/-- `HashMap::insert`: overwrite the value of an existing key or add
the pair. -/
def hmInsert (m : List (Val × Val)) (k v : Val) : List (Val × Val) :=
  if m.any (fun p => p.1 == k) then m.map (fun p => if p.1 = k then (k, v) else p)
  else m ++ [(k, v)]

/-- The key loop of `get_rules`, accumulating the request map. -/
def buildMapAux (s : Sysctl) : List (Val × Val) → List RString →
    Except LibJailError (List (Val × Val))
  | acc, [] => .ok acc
  | acc, k :: rest =>
    match stepKey s k with
    | .error e => .error e
    | .ok none => buildMapAux s acc rest
    | .ok (some (kv, v)) => buildMapAux s (hmInsert acc kv v) rest

/-- `HashMap::insert` for the decoded output map. -/
def outInsert (m : List (RString × OutVal)) (k : RString) (v : OutVal) :
    List (RString × OutVal) :=
  if m.any (fun p => p.1 == k) then m.map (fun p => if p.1 = k then (k, v) else p)
  else m ++ [(k, v)]

/-- The decode loop of `get_rules`: each key decodes with
`into_string()?`, each value with `OutVal::from`. -/
def decodeMapAux : List (RString × OutVal) → List (Val × Val) →
    Except LibJailError (List (RString × OutVal))
  | acc, [] => .ok acc
  | acc, (k, v) :: rest =>
    match k.intoString with
    | .error e => .error e
    | .ok ks => decodeMapAux (outInsert acc ks (OutVal.fromVal v)) rest

/-- The index merge of `get_rules` (lines 606-613): insert
`"jid" → jid` or `"name" → name` into the request map (both sides go
through `try_into()?`). -/
def insertIndex (m0 : List (Val × Val)) (idx : Index) :
    Except LibJailError (List (Val × Val)) :=
  match idx with
  | .jid j =>
    match tryFromString (strBytes "jid") with
    | .ok kv => .ok (hmInsert m0 kv (.i32 j))
    | .error e => .error (.convertError e)
  | .name n =>
    match tryFromString (strBytes "name") with
    | .ok kv =>
      match tryFromString n with
      | .ok nv => .ok (hmInsert m0 kv nv)
      | .error e => .error (.convertError e)
    | .error e => .error (.convertError e)

/-- The syscall-and-decode tail of `get_rules` (lines 615-645): encode
the request map, invoke `jail_get` (whose in-place writes to the value
regions are `kern.writeVal`), and on a non-negative status decode every
entry; a negative status surfaces the OS last error. -/
def runGet (kern : JailKernel) (m1 : List (Val × Val)) :
    Except LibJailError (List (RString × OutVal)) :=
  let result := kern.jailGet (encodePairs m1)
  if 0 ≤ result then
    decodeMapAux [] (m1.map (fun p => (p.1, kern.writeVal p.1 p.2)))
  else .error (.externalError kern.lastErrorCode kern.lastErrorMessage)

/-- `get_rules` of `src/lib.rs` (lines 567-646): build the request map
from the keys, merge the index entry, then encode, call and decode. -/
def getRules (s : Sysctl) (kern : JailKernel) (idx : Index) (keys : List RString) :
    Except LibJailError (List (RString × OutVal)) :=
  match buildMapAux s [] keys with
  | .error e => .error e
  | .ok m0 =>
    match insertIndex m0 idx with
    | .error e => .error e
    | .ok m1 => runGet kern m1

/-- C8: for every `Val` shape with no dedicated decode case — the
128-bit unsigned variant and the `Null` variant — decoding through
`From<Val> for OutVal` yields a zero `Int32` output value rather than
failing (the conversion is total). -/
theorem fromVal_default_zero_i32 :
    (∀ x : Nat, OutVal.fromVal (Val.u128 x) = OutVal.i32 0) ∧
    OutVal.fromVal Val.null = OutVal.i32 0 :=
  ⟨fun _ => rfl, rfl⟩

/-- C10: `OutVal::into_string` returns the contained string for the
`String` variant and the empty string for every other variant; it is
total and never renders the non-string value. -/
theorem outVal_intoString_cases :
    (∀ s, OutVal.intoString (OutVal.string s) = s) ∧
    (∀ v, OutVal.intoString (OutVal.i32 v) = []) ∧
    (∀ v, OutVal.intoString (OutVal.u32 v) = []) ∧
    (∀ v, OutVal.intoString (OutVal.u64 v) = []) ∧
    (∀ v, OutVal.intoString (OutVal.bool v) = []) ∧
    (∀ v, OutVal.intoString (OutVal.ip4 v) = []) ∧
    (∀ v, OutVal.intoString (OutVal.ip6 v) = []) ∧
    OutVal.intoString OutVal.null = [] :=
  ⟨fun _ => rfl, fun _ => rfl, fun _ => rfl, fun _ => rfl, fun _ => rfl,
   fun _ => rfl, fun _ => rfl, rfl⟩

/-- C7: constructing a `Text` (`CString`-backed) `Val` from a string
fails with a conversion error exactly when the input contains an
embedded NUL byte, and succeeds on every NUL-free input. -/
theorem tryFromString_nul_policy (s : RString) :
    (0 ∈ s → tryFromString s = .error .nulError) ∧
    (0 ∉ s → tryFromString s = .ok (.cstring s)) := by
  constructor <;> intro h <;> simp [tryFromString, h]

/-- Witness for C7 at the concrete inputs "h\x00i" and "hi". -/
theorem tryFromString_nul_policy_witness :
    (0 ∈ ([104, 0, 105] : RString) ∧
      tryFromString [104, 0, 105] = .error .nulError) ∧
    (0 ∉ ([104, 105] : RString) ∧
      tryFromString [104, 105] = .ok (.cstring [104, 105])) :=
  ⟨⟨by decide, (tryFromString_nul_policy [104, 0, 105]).1 (by decide)⟩,
   ⟨by decide, (tryFromString_nul_policy [104, 105]).2 (by decide)⟩⟩

/-- C2: for each of the four names "ip4.addr", "ip6.addr", "ip4" and
"ip6", one loop step of `get_rules` returns the built-in override
placeholder (zero IPv4, zero IPv6, zero Int32, zero Int32) for any
schema tree `s` whatsoever — the per-name kernel schema query is never
consulted. -/
theorem builtin_overrides_bypass_sysctl (s : Sysctl) :
    stepKey s (strBytes "ip4.addr") =
      .ok (some (.cstring (strBytes "ip4.addr"), .ip4 0)) ∧
    stepKey s (strBytes "ip6.addr") =
      .ok (some (.cstring (strBytes "ip6.addr"), .ip6 0)) ∧
    stepKey s (strBytes "ip4") = .ok (some (.cstring (strBytes "ip4"), .i32 0)) ∧
    stepKey s (strBytes "ip6") = .ok (some (.cstring (strBytes "ip6"), .i32 0)) :=
  ⟨rfl, rfl, rfl, rfl⟩

/-- C4: `set` returns `Ok` with the identifier exactly when the kernel
create/update call returns a strictly positive integer; every
non-positive result is surfaced as `ExternalError` carrying the OS
last-error code and its textual description, never as `Ok`. -/
theorem set_ok_iff_positive (kern : JailKernel) (rules : List (Val × Val))
    (action : Action) :
    ((∃ j, set kern rules action = .ok j) ↔
      0 < kern.jailSet (encodePairs rules) action.flags) ∧
    (∀ j, set kern rules action = .ok j →
      j = kern.jailSet (encodePairs rules) action.flags) ∧
    (kern.jailSet (encodePairs rules) action.flags ≤ 0 →
      set kern rules action =
        .error (.externalError kern.lastErrorCode kern.lastErrorMessage)) := by
  by_cases h : 0 < kern.jailSet (encodePairs rules) action.flags
  · refine ⟨⟨fun _ => h,
      fun _ => ⟨kern.jailSet (encodePairs rules) action.flags, by simp [set, h]⟩⟩, ?_, ?_⟩
    · intro j hj
      simp [set, h] at hj
      omega
    · intro hle
      omega
  · refine ⟨⟨?_, fun hpos => absurd hpos h⟩, ?_, ?_⟩
    · rintro ⟨j, hj⟩
      simp [set, h] at hj
    · intro j hj
      simp [set, h] at hj
    · intro _
      simp [set, h]

/-- Witness for C4 at a concrete kernel whose create call fails with
status -1 and OS error 13 "Permission denied". -/
theorem set_ok_iff_positive_witness :
    set ⟨fun _ _ => -1, fun _ => 0, fun _ v => v, 13, strBytes "Permission denied"⟩
        [] ⟨1⟩ =
      .error (.externalError 13 (strBytes "Permission denied")) :=
  (set_ok_iff_positive
    ⟨fun _ _ => -1, fun _ => 0, fun _ v => v, 13, strBytes "Permission denied"⟩
    [] ⟨1⟩).2.2 (by decide)

/-- C9: encoding an ordered sequence of (key, value) pairs produces a
flat region list of exactly twice the pair count, in which the i-th
pair's key region sits at index 2i, immediately before its value
region at index 2i+1. -/
theorem encodePairs_shape (m : List (Val × Val)) :
    (encodePairs m).length = 2 * m.length ∧
    (∀ i p, m[i]? = some p →
      (encodePairs m)[2 * i]? = some p.1.toIov ∧
      (encodePairs m)[2 * i + 1]? = some p.2.toIov) := by
  induction m with
  | nil => simp [encodePairs]
  | cons q rest ih =>
    have hcons : encodePairs (q :: rest) = q.1.toIov :: q.2.toIov :: encodePairs rest := rfl
    constructor
    · rw [hcons]
      simp [ih.1]
      omega
    · intro i p hp
      match i with
      | 0 =>
        simp at hp
        subst hp
        rw [hcons]
        simp
      | Nat.succ i2 =>
        simp at hp
        have h2 := ih.2 i2 p hp
        have e1 : 2 * (i2 + 1) = (2 * i2 + 1) + 1 := by ring
        rw [hcons, e1]
        simp only [List.getElem?_cons_succ]
        exact ⟨h2.1, h2.2⟩

/-- Witness for C9 on a concrete two-pair sequence. -/
theorem encodePairs_shape_witness :
    ([((Val.i32 7 : Val), Val.null), (Val.bool true, Val.u64 9)][1]? =
      some (Val.bool true, Val.u64 9)) ∧
    (encodePairs [(Val.i32 7, Val.null), (Val.bool true, Val.u64 9)])[2]? =
      some (Val.bool true).toIov ∧
    (encodePairs [(Val.i32 7, Val.null), (Val.bool true, Val.u64 9)])[3]? =
      some (Val.u64 9).toIov :=
  ⟨by decide,
    (encodePairs_shape [(Val.i32 7, Val.null), (Val.bool true, Val.u64 9)]).2 1
      (Val.bool true, Val.u64 9) (by decide)⟩

lemma toBytesLE_length (w n : Nat) : (toBytesLE w n).length = w := by
  induction w generalizing n with
  | zero => rfl
  | succ w ih => simp [toBytesLE, ih]

lemma toBytesLE_lt (w n : Nat) : ∀ b ∈ toBytesLE w n, b < 256 := by
  induction w generalizing n with
  | zero => simp [toBytesLE]
  | succ w ih =>
    intro b hb
    simp only [toBytesLE, List.mem_cons] at hb
    rcases hb with h | h
    · subst h
      exact Nat.mod_lt _ (by norm_num)
    · exact ih _ _ h

lemma fromBytesLE_toBytesLE (w n : Nat) (h : n < 256 ^ w) :
    fromBytesLE (toBytesLE w n) = n := by
  induction w generalizing n with
  | zero =>
    simp [toBytesLE, fromBytesLE]
    simp [pow_zero] at h
    omega
  | succ w ih =>
    have hdiv : n / 256 < 256 ^ w := by
      rw [Nat.div_lt_iff_lt_mul (by norm_num : 0 < 256)]
      calc n < 256 ^ (w + 1) := h
        _ = 256 ^ w * 256 := by ring
    simp only [toBytesLE, fromBytesLE, ih _ hdiv]
    exact Nat.mod_add_div n 256

lemma toBytesLE_fromBytesLE (l : List Nat) (h : ∀ b ∈ l, b < 256) :
    toBytesLE l.length (fromBytesLE l) = l := by
  induction l with
  | nil => rfl
  | cons b bs ih =>
    have hb : b < 256 := h b (by simp)
    have hmod : (b + 256 * fromBytesLE bs) % 256 = b := by
      rw [Nat.add_mul_mod_self_left]
      exact Nat.mod_eq_of_lt hb
    have hdiv : (b + 256 * fromBytesLE bs) / 256 = fromBytesLE bs := by
      rw [Nat.add_mul_div_left _ _ (by norm_num : 0 < 256)]
      simp [Nat.div_eq_of_lt hb]
    simp only [fromBytesLE, List.length_cons, toBytesLE, hmod, hdiv]
    rw [ih (fun x hx => h x (by simp [hx]))]

lemma swapBytes_swapBytes (w n : Nat) (h : n < 256 ^ w) :
    swapBytes w (swapBytes w n) = n := by
  unfold swapBytes
  have hl : ((toBytesLE w n).reverse).length = w := by
    simp [toBytesLE_length]
  have hb : ∀ b ∈ (toBytesLE w n).reverse, b < 256 := by
    intro b hbm
    exact toBytesLE_lt w n b (List.mem_reverse.mp hbm)
  have h1 : toBytesLE w (fromBytesLE (toBytesLE w n).reverse) =
      (toBytesLE w n).reverse := by
    have h2 := toBytesLE_fromBytesLE (toBytesLE w n).reverse hb
    rwa [hl] at h2
  rw [h1, List.reverse_reverse, fromBytesLE_toBytesLE w n h]

/-- C6: for every valid IPv4 and IPv6 address, converting it into a
`Val` (which stores it after a byte-order swap) and decoding that `Val`
back (which swaps again) yields the original address. -/
theorem ip_value_roundtrip :
    (∀ a : Nat, a < 2 ^ 32 → OutVal.fromVal (valFromIpv4 a) = .ip4 a) ∧
    (∀ b : Nat, b < 2 ^ 128 → OutVal.fromVal (valFromIpv6 b) = .ip6 b) := by
  constructor
  · intro a ha
    have ha4 : a < 256 ^ 4 := by
      calc a < 2 ^ 32 := ha
        _ = 256 ^ 4 := by norm_num
    simp [valFromIpv4, OutVal.fromVal, swapBytes_swapBytes 4 a ha4]
  · intro b hb
    have hb16 : b < 256 ^ 16 := by
      calc b < 2 ^ 128 := hb
        _ = 256 ^ 16 := by norm_num
    simp [valFromIpv6, OutVal.fromVal, swapBytes_swapBytes 16 b hb16]

/-- Witness for C6 at 127.0.0.1 (numeric 2130706433) and ::1
(numeric 1). -/
theorem ip_value_roundtrip_witness :
    (2130706433 < 2 ^ 32 ∧
      OutVal.fromVal (valFromIpv4 2130706433) = .ip4 2130706433) ∧
    (1 < 2 ^ 128 ∧ OutVal.fromVal (valFromIpv6 1) = .ip6 1) :=
  ⟨⟨by norm_num, ip_value_roundtrip.1 2130706433 (by norm_num)⟩,
   ⟨by norm_num, ip_value_roundtrip.2 1 (by norm_num)⟩⟩

/-- Modelled from the spec's words, for comparison with the code:
"a Text buffer is not valid text" — the `CString` content, or the
buffer content up to its first NUL, is not valid UTF-8. -/
def textNotValidSpec : Val → Bool
  | .cstring bs => !utf8Valid bs
  | .buffer bs => !utf8Valid (takeToNul bs)
  | _ => false

/-- C5: decoding a `Val` fails exactly when a Text buffer is not valid
text, and that failure is surfaced as a `ConversionError`; the integer,
boolean, address and buffer variants never fail for any byte content
other than invalid text. -/
theorem intoString_error_iff_invalid_text (v : Val) :
    ((∃ e, v.intoString = .error e) ↔ textNotValidSpec v = true) ∧
    (∀ e, v.intoString = .error e → e = .convertError .intoStringError) := by
  cases v with
  | buffer bs =>
    by_cases h : utf8Valid (takeToNul bs) <;>
      simp [Val.intoString, textNotValidSpec, h]
  | cstring bs =>
    by_cases h : utf8Valid bs <;> simp [Val.intoString, textNotValidSpec, h]
  | i32 v => simp [Val.intoString, textNotValidSpec]
  | u32 v => simp [Val.intoString, textNotValidSpec]
  | u64 v => simp [Val.intoString, textNotValidSpec]
  | u128 v => simp [Val.intoString, textNotValidSpec]
  | bool v => simp [Val.intoString, textNotValidSpec]
  | ip4 v => simp [Val.intoString, textNotValidSpec]
  | ip6 v => simp [Val.intoString, textNotValidSpec]
  | null => simp [Val.intoString, textNotValidSpec]

/-- Witness for C5 at the concrete invalid-UTF-8 text value 0xFF. -/
theorem intoString_error_iff_invalid_text_witness :
    (Val.cstring [255]).intoString = .error (.convertError .intoStringError) := by
  have h := intoString_error_iff_invalid_text (Val.cstring [255])
  obtain ⟨e, he⟩ := h.1.mpr (by decide)
  rw [he, h.2 e he]

/-- C1: for a parameter name not covered by the built-in overrides,
resolution queries the kernel schema leaf for that name and the
placeholder is determined by the leaf's declared type: `Int` yields a
zero Int32, `Ulong` yields a zero UInt64, `String` yields a zero-filled
buffer sized by the leaf's value parsed as a decimal unsigned integer,
`Struct` yields a zero UInt32 for first-element size 4, a zero UInt128
for size 16 and a MismatchValue error otherwise, and every other
declared type yields a MismatchType error. -/
theorem getValByType_placeholder_by_ctl_type
    (s : Sysctl) (key : RString) (leaf : CtlLeaf)
    (hov : getValByKey key = none)
    (hlk : s.lookup (rulePath key) = .ok leaf) :
    (leaf.ctype = .tInt → getValByType s key = .ok (.i32 0)) ∧
    (leaf.ctype = .tUlong → getValByType s key = .ok (.u64 0)) ∧
    (∀ str n, leaf.ctype = .tString → leaf.value = .vString str →
      parseUsize str = some n →
      getValByType s key = .ok (.buffer (List.replicate n 0))) ∧
    (∀ bytes, leaf.ctype = .tStruct → leaf.value = .vStruct bytes → bytes ≠ [] →
      (bytes.headD 0 = 4 → getValByType s key = .ok (.u32 0)) ∧
      (bytes.headD 0 = 16 → getValByType s key = .ok (.u128 0)) ∧
      (bytes.headD 0 ≠ 4 → bytes.headD 0 ≠ 16 →
        getValByType s key = .error .mismatchCtlValue)) ∧
    (leaf.ctype ≠ .tInt → leaf.ctype ≠ .tUlong → leaf.ctype ≠ .tString →
      leaf.ctype ≠ .tStruct → getValByType s key = .error .mismatchCtlType) ∧
    (∀ v, getValByType s key = .ok v → 0 ∉ key →
      stepKey s key = .ok (some (.cstring key, v))) := by
  refine ⟨?_, ?_, ?_, ?_, ?_, ?_⟩
  · intro h
    simp [getValByType, hlk, h]
  · intro h
    simp [getValByType, hlk, h]
  · intro str n h1 h2 h3
    simp [getValByType, hlk, h1, h2, h3]
  · intro bytes h1 h2 _hne
    refine ⟨?_, ?_, ?_⟩
    · intro h4
      simp only [getValByType, hlk, h1, h2]
      rw [if_pos h4]
    · intro h16
      simp only [getValByType, hlk, h1, h2]
      rw [if_neg (by rw [h16]; norm_num), if_pos h16]
    · intro h4 h16
      simp only [getValByType, hlk, h1, h2]
      rw [if_neg h4, if_neg h16]
  · intro h1 h2 h3 h4
    cases hct : leaf.ctype <;> simp_all [getValByType, hlk]
  · intro v hv hnul
    simp [stepKey, hov, tryFromString, hnul, hv]

/-- A concrete one-leaf schema tree: the "persist" parameter with an
Int-typed leaf. -/
def persistLeaf : CtlLeaf :=
  ⟨rulePath (strBytes "persist"), .vInt 0, .tInt⟩

def persistSysctl : Sysctl :=
  mkSysctl [(rulePath (strBytes "persist"), .ok persistLeaf)]

/-- Witness for C1: resolving "persist" against the concrete schema
tree produces the zero Int32 placeholder. -/
theorem getValByType_placeholder_witness :
    getValByType persistSysctl (strBytes "persist") = .ok (.i32 0) ∧
    stepKey persistSysctl (strBytes "persist") =
      .ok (some (.cstring (strBytes "persist"), .i32 0)) := by
  have h := getValByType_placeholder_by_ctl_type persistSysctl (strBytes "persist")
    persistLeaf (by decide) (by decide)
  have h1 := h.1 rfl
  exact ⟨h1, h.2.2.2.2.2 _ h1 (by decide)⟩

lemma stepKey_skip {s : Sysctl} {k : RString}
    (hov : getValByKey k = none) (hnul : 0 ∉ k)
    (hna : getValByType s k = .error (.sysctlError .noReadAccess)) :
    stepKey s k = .ok none := by
  simp [stepKey, hov, tryFromString, hnul, hna]

lemma stepKey_abort {s : Sysctl} {k : RString} {e : LibJailError}
    (hov : getValByKey k = none) (hnul : 0 ∉ k)
    (he : getValByType s k = .error e) (hne : e ≠ .sysctlError .noReadAccess) :
    stepKey s k = .error e := by
  cases e with
  | externalError c m => simp [stepKey, hov, tryFromString, hnul, he]
  | sysctlError se =>
    cases se with
    | noReadAccess => exact absurd rfl hne
    | noWriteAccess => simp [stepKey, hov, tryFromString, hnul, he]
    | ctlUnknown => simp [stepKey, hov, tryFromString, hnul, he]
    | typeUnknown => simp [stepKey, hov, tryFromString, hnul, he]
  | convertError ce => simp [stepKey, hov, tryFromString, hnul, he]
  | mismatchCtlType => simp [stepKey, hov, tryFromString, hnul, he]
  | mismatchCtlValue => simp [stepKey, hov, tryFromString, hnul, he]

lemma stepKey_some_key {s : Sysctl} {k : RString} {kv v : Val}
    (h : stepKey s k = .ok (some (kv, v))) : kv = .cstring k := by
  by_cases h0 : 0 ∈ k
  · cases hk : getValByKey k <;>
      simp [stepKey, hk, tryFromString, h0] at h
  · cases hk : getValByKey k with
    | none =>
      cases hv : getValByType s k with
      | ok w =>
        simp [stepKey, hk, tryFromString, h0, hv] at h
        exact h.1.symm
      | error e =>
        cases e with
        | externalError c m => simp [stepKey, hk, tryFromString, h0, hv] at h
        | sysctlError se =>
          cases se with
          | noReadAccess => simp [stepKey, hk, tryFromString, h0, hv] at h
          | noWriteAccess => simp [stepKey, hk, tryFromString, h0, hv] at h
          | ctlUnknown => simp [stepKey, hk, tryFromString, h0, hv] at h
          | typeUnknown => simp [stepKey, hk, tryFromString, h0, hv] at h
        | convertError ce => simp [stepKey, hk, tryFromString, h0, hv] at h
        | mismatchCtlType => simp [stepKey, hk, tryFromString, h0, hv] at h
        | mismatchCtlValue => simp [stepKey, hk, tryFromString, h0, hv] at h
    | some w =>
      simp [stepKey, hk, tryFromString, h0] at h
      exact h.1.symm

lemma hmInsert_fst {acc : List (Val × Val)} {kv v : Val} {a : Val}
    (h : a ∈ (hmInsert acc kv v).map Prod.fst) :
    a ∈ acc.map Prod.fst ∨ a = kv := by
  unfold hmInsert at h
  split at h
  · simp only [List.map_map, List.mem_map] at h
    obtain ⟨p, hp, hpa⟩ := h
    by_cases hpk : p.1 = kv
    · right
      simp [hpk] at hpa
      exact hpa.symm
    · left
      simp [Function.comp, hpk] at hpa
      exact List.mem_map.mpr ⟨p, hp, hpa⟩
  · simp only [List.map_append, List.mem_append, List.map_cons, List.map_nil,
      List.mem_cons, List.not_mem_nil, or_false] at h
    rcases h with h | h
    · exact Or.inl h
    · exact Or.inr h

lemma outInsert_fst {acc : List (RString × OutVal)} {k a : RString} {v : OutVal}
    (h : a ∈ (outInsert acc k v).map Prod.fst) :
    a ∈ acc.map Prod.fst ∨ a = k := by
  unfold outInsert at h
  split at h
  · simp only [List.map_map, List.mem_map] at h
    obtain ⟨p, hp, hpa⟩ := h
    by_cases hpk : p.1 = k
    · right
      simp [hpk] at hpa
      exact hpa.symm
    · left
      simp [Function.comp, hpk] at hpa
      exact List.mem_map.mpr ⟨p, hp, hpa⟩
  · simp only [List.map_append, List.mem_append, List.map_cons, List.map_nil,
      List.mem_cons, List.not_mem_nil, or_false] at h
    rcases h with h | h
    · exact Or.inl h
    · exact Or.inr h

lemma buildMapAux_mem (s : Sysctl) :
    ∀ (keys : List RString) (acc m : List (Val × Val)),
      buildMapAux s acc keys = .ok m → ∀ p ∈ m,
        p.1 ∈ acc.map Prod.fst ∨
        ∃ k2, k2 ∈ keys ∧ p.1 = .cstring k2 ∧
          ∃ w, stepKey s k2 = .ok (some (.cstring k2, w)) := by
  intro keys
  induction keys with
  | nil =>
    intro acc m h p hp
    simp [buildMapAux] at h
    subst h
    exact Or.inl (List.mem_map_of_mem _ hp)
  | cons k rest ih =>
    intro acc m h p hp
    cases hk : stepKey s k with
    | error e => simp [buildMapAux, hk] at h
    | ok r =>
      cases r with
      | none =>
        simp only [buildMapAux, hk] at h
        rcases ih acc m h p hp with h1 | ⟨k2, hk2, hfst, hw⟩
        · exact Or.inl h1
        · exact Or.inr ⟨k2, List.mem_cons_of_mem _ hk2, hfst, hw⟩
      | some q =>
        obtain ⟨kv, w⟩ := q
        have hkv : kv = .cstring k := stepKey_some_key hk
        subst hkv
        simp only [buildMapAux, hk] at h
        rcases ih _ m h p hp with h1 | ⟨k2, hk2, hfst, hw⟩
        · rcases hmInsert_fst h1 with h2 | h2
          · exact Or.inl h2
          · exact Or.inr ⟨k, List.mem_cons_self k rest, h2, w, hk⟩
        · exact Or.inr ⟨k2, List.mem_cons_of_mem _ hk2, hfst, hw⟩

lemma buildMapAux_skip (s : Sysctl) (k : RString)
    (hsk : stepKey s k = .ok none) :
    ∀ (keys : List RString) (acc : List (Val × Val)),
      buildMapAux s acc keys =
        buildMapAux s acc (keys.filter (fun x => decide (x ≠ k))) := by
  intro keys
  induction keys with
  | nil => intro acc; rfl
  | cons x rest ih =>
    intro acc
    by_cases hx : x = k
    · subst hx
      have h1 : (x :: rest).filter (fun y => decide (y ≠ x)) =
          rest.filter (fun y => decide (y ≠ x)) := by simp
      rw [h1]
      have h2 : buildMapAux s acc (x :: rest) = buildMapAux s acc rest := by
        simp only [buildMapAux, hsk]
      rw [h2]
      exact ih acc
    · have h1 : (x :: rest).filter (fun y => decide (y ≠ k)) =
          x :: rest.filter (fun y => decide (y ≠ k)) := by simp [hx]
      rw [h1]
      cases hsx : stepKey s x with
      | error e => simp only [buildMapAux, hsx]
      | ok r =>
        cases r with
        | none =>
          simp only [buildMapAux, hsx]
          exact ih acc
        | some q =>
          obtain ⟨kv, w⟩ := q
          simp only [buildMapAux, hsx]
          exact ih _

lemma buildMapAux_abort (s : Sysctl) (k : RString) (e : LibJailError)
    (hsk : stepKey s k = .error e) :
    ∀ (pre : List RString) (post : List RString) (acc : List (Val × Val)),
      (∀ k2 ∈ pre, ∃ r, stepKey s k2 = .ok r) →
      buildMapAux s acc (pre ++ k :: post) = .error e := by
  intro pre
  induction pre with
  | nil =>
    intro post acc _
    simp only [List.nil_append, buildMapAux, hsk]
  | cons x rest ih =>
    intro post acc hok
    obtain ⟨r, hr⟩ := hok x (List.mem_cons_self x rest)
    have hrest : ∀ k2 ∈ rest, ∃ r2, stepKey s k2 = .ok r2 :=
      fun k2 hk2 => hok k2 (List.mem_cons_of_mem _ hk2)
    cases r with
    | none =>
      simp only [List.cons_append, buildMapAux, hr]
      exact ih post acc hrest
    | some q =>
      obtain ⟨kv, w⟩ := q
      simp only [List.cons_append, buildMapAux, hr]
      exact ih post _ hrest

lemma intoString_cstring_ok {bs a : RString}
    (h : (Val.cstring bs).intoString = .ok a) : a = bs := by
  by_cases hv : utf8Valid bs
  · simp [Val.intoString, hv] at h
    exact h.symm
  · simp [Val.intoString, hv] at h

lemma decodeMapAux_mem :
    ∀ (l : List (Val × Val)) (acc out : List (RString × OutVal)),
      decodeMapAux acc l = .ok out → ∀ a ∈ out.map Prod.fst,
        a ∈ acc.map Prod.fst ∨ ∃ p, p ∈ l ∧ p.1.intoString = .ok a := by
  intro l
  induction l with
  | nil =>
    intro acc out h a ha
    simp [decodeMapAux] at h
    subst h
    exact Or.inl ha
  | cons q rest ih =>
    intro acc out h a ha
    obtain ⟨qk, qv⟩ := q
    cases hks : qk.intoString with
    | error e =>
      simp only [decodeMapAux, hks] at h
      cases h
    | ok ks =>
      simp only [decodeMapAux, hks] at h
      rcases ih _ out h a ha with h1 | ⟨p, hp, hps⟩
      · rcases outInsert_fst h1 with h2 | h2
        · exact Or.inl h2
        · subst h2
          exact Or.inr ⟨(qk, qv), List.mem_cons_self _ _, hks⟩
      · exact Or.inr ⟨p, List.mem_cons_of_mem _ hp, hps⟩

lemma insertIndex_fst {m0 m1 : List (Val × Val)} {idx : Index} {a : Val}
    (h : insertIndex m0 idx = .ok m1) (ha : a ∈ m1.map Prod.fst) :
    a ∈ m0.map Prod.fst ∨ a = .cstring (strBytes "jid") ∨
      a = .cstring (strBytes "name") := by
  cases idx with
  | jid j =>
    have hj : tryFromString (strBytes "jid") = .ok (.cstring (strBytes "jid")) := by
      decide
    simp only [insertIndex, hj] at h
    injection h with h
    subst h
    rcases hmInsert_fst ha with h1 | h1
    · exact Or.inl h1
    · exact Or.inr (Or.inl h1)
  | name n =>
    have hj : tryFromString (strBytes "name") = .ok (.cstring (strBytes "name")) := by
      decide
    cases hn : tryFromString n with
    | error e =>
      simp only [insertIndex, hj, hn] at h
      cases h
    | ok nv =>
      simp only [insertIndex, hj, hn] at h
      injection h with h
      subst h
      rcases hmInsert_fst ha with h1 | h1
      · exact Or.inl h1
      · exact Or.inr (Or.inr h1)

/-- C3: if the per-name schema lookup for a name fails with the
no-read-access condition, `get_rules` does not fail on that account:
the whole call behaves as if the name were absent from the key list
(so the name is in neither the outgoing request nor the result
mapping), while every per-name lookup failure other than no-read-access
aborts the whole call with that error. -/
theorem getRules_no_read_access_policy
    (s : Sysctl) (kern : JailKernel) (idx : Index) (keys : List RString)
    (k : RString) (hov : getValByKey k = none) (hnul : 0 ∉ k) :
    (getValByType s k = .error (.sysctlError .noReadAccess) →
      (getRules s kern idx keys =
        getRules s kern idx (keys.filter (fun x => decide (x ≠ k)))) ∧
      (k ≠ strBytes "jid" → k ≠ strBytes "name" →
        ∀ m, getRules s kern idx keys = .ok m → k ∉ m.map Prod.fst)) ∧
    (∀ e, getValByType s k = .error e → e ≠ .sysctlError .noReadAccess →
      ∀ pre post, keys = pre ++ k :: post →
        (∀ k2 ∈ pre, ∃ r, stepKey s k2 = .ok r) →
        getRules s kern idx keys = .error e) := by
  constructor
  · intro hna
    have hskip := stepKey_skip hov hnul hna
    constructor
    · unfold getRules
      rw [buildMapAux_skip s k hskip keys []]
    · intro hjid hname m hm hk
      unfold getRules at hm
      cases hb : buildMapAux s [] keys with
      | error e =>
        rw [hb] at hm
        cases hm
      | ok m0 =>
        simp only [hb] at hm
        cases hi : insertIndex m0 idx with
        | error e =>
          simp only [hi] at hm
          cases hm
        | ok m1 =>
          simp only [hi] at hm
          unfold runGet at hm
          by_cases hres : 0 ≤ kern.jailGet (encodePairs m1)
          · rw [if_pos hres] at hm
            rcases decodeMapAux_mem _ _ _ hm k hk with h1 | ⟨p, hp, hps⟩
            · simp at h1
            · obtain ⟨q, hq, hpq⟩ := List.mem_map.mp hp
              have hfst : p.1 = q.1 := by rw [← hpq]
              have hq1 : q.1 ∈ m1.map Prod.fst := List.mem_map_of_mem _ hq
              rcases insertIndex_fst hi hq1 with h2 | h2 | h2
              · obtain ⟨p0, hp0, hp0f⟩ := List.mem_map.mp h2
                rcases buildMapAux_mem s keys [] m0 hb p0 hp0 with h3 | h3
                · simp at h3
                · obtain ⟨k2, hk2, hf2, w, hw⟩ := h3
                  have hpk2 : p.1 = .cstring k2 := by rw [hfst, ← hp0f, hf2]
                  have hkk2 : k = k2 := intoString_cstring_ok (hpk2 ▸ hps)
                  subst hkk2
                  rw [hskip] at hw
                  cases hw
              · have hpk : p.1 = Val.cstring (strBytes "jid") := hfst.trans h2
                exact hjid (intoString_cstring_ok (hpk ▸ hps))
              · have hpk : p.1 = Val.cstring (strBytes "name") := hfst.trans h2
                exact hname (intoString_cstring_ok (hpk ▸ hps))
          · rw [if_neg hres] at hm
            cases hm
  · intro e he hne pre post hkeys hok
    subst hkeys
    have hstep := stepKey_abort hov hnul he hne
    have habort := buildMapAux_abort s k e hstep pre post [] hok
    unfold getRules
    rw [habort]

/-- A concrete two-leaf schema tree: "persist" is a readable Int leaf
and "hidden" fails with the no-read-access condition. -/
def demoSysctl : Sysctl := mkSysctl
  [(rulePath (strBytes "persist"),
      .ok ⟨rulePath (strBytes "persist"), .vInt 0, .tInt⟩),
   (rulePath (strBytes "hidden"), .error .noReadAccess)]

/-- A concrete kernel whose get call succeeds and writes nothing. -/
def demoKernel : JailKernel := ⟨fun _ _ => 1, fun _ => 0, fun _ v => v, 0, []⟩

/-- Witness for C3: with the "hidden" leaf unreadable, `get_rules` on
["persist", "hidden"] behaves exactly as on the list with "hidden"
filtered out. -/
theorem getRules_no_read_access_policy_witness :
    getRules demoSysctl demoKernel (.jid 1)
        [strBytes "persist", strBytes "hidden"] =
      getRules demoSysctl demoKernel (.jid 1)
        ([strBytes "persist", strBytes "hidden"].filter
          (fun x => decide (x ≠ strBytes "hidden"))) :=
  ((getRules_no_read_access_policy demoSysctl demoKernel (.jid 1)
      [strBytes "persist", strBytes "hidden"] (strBytes "hidden")
      (by decide) (by decide)).1 (by decide)).1

end Libjail
